import Mathlib

/-!
Verification of the V8 MemoryReducer state machine
(src/chromium/src/v8/src/heap/memory-reducer.h and its unit test
src/chromium/src/v8/test/unittests/heap/memory-reducer-unittest.cc).

The MemoryReducer is a deterministic finite-state controller.  Its pure
transtion function `Step : (State, Event) → State` is declared in
memory-reducer.h; the translation unit defining it is not part of the
repository, so `Step` below is modelled from the specification's transition
table, deferring to the repository's unit test wherever the two disagree:
the `Wait`/`Timer` cap exit is checked first, so any `Timer` event in `Wait`
with `started_gcs ≥ kMaxNumberOfGCs` yields `Done` (test `FromWaitToDone`),
and the incrementing `Wait`/`BackgroundIdleNotification` transition sets
`next_gc_start_ms = time_ms + kLongDelayMs` rather than keeping it
(test `FromWaitToWait`).

C++ `double` time values are embedded as `ℚ` (the claims only use ordering
and addition, which are exact here); C++ `int` counters are embedded as `ℤ`.
-/

namespace MemoryReducer

/-- The controller phase, `enum Action { kDone, kWait, kRun }` from
memory-reducer.h. -/
inductive Action where
  | kDone
  | kWait
  | kRun
deriving DecidableEq, Repr

/-- `struct State` from memory-reducer.h: the phase, the number of GCs
initiated by the reducer since it left `kDone`, and the earliest time the
next reducer-initiated GC may start. -/
structure State where
  action : Action
  started_gcs : ℤ
  next_gc_start_ms : ℚ
deriving DecidableEq, Repr

/-- `enum EventType` from memory-reducer.h. -/
inductive EventType where
  | kTimer
  | kMarkCompact
  | kContextDisposed
  | kBackgroundIdleNotification
deriving DecidableEq, Repr

/-- `struct Event` from memory-reducer.h: a flat record; each field is
meaningful only for the event types that read it. -/
structure Event where
  type : EventType
  time_ms : ℚ
  low_allocation_rate : Bool
  next_gc_likely_to_collect_more : Bool
  can_start_incremental_gc : Bool
deriving DecidableEq, Repr

/-- The three build-time constants `kLongDelayMs`, `kShortDelayMs`,
`kMaxNumberOfGCs` declared in memory-reducer.h.  Their defining translation
unit is absent from the repository and the spec fixes no exact values
("exact values are host policy"), so the development is parametric in them. -/
structure Config where
  kLongDelayMs : ℚ
  kShortDelayMs : ℚ
  kMaxNumberOfGCs : ℤ
deriving DecidableEq, Repr

/-- Modelled from the spec: the pure transition function
`MemoryReducer::Step` declared in memory-reducer.h, whose defining .cc file
is missing from the repository.  It follows the spec's transition table
(section 4.1) row by row; in the `Wait`/`Timer` cell the cap exit
(`started_gcs ≥ kMaxNumberOfGCs` → `Done`) is evaluated before the other
rows, as the repository's unit test `FromWaitToDone` requires (there every
`Timer` variant — low allocation rate, high allocation rate, pending GC —
maps a capped `Wait` state to `Done`); and in the incrementing
`Wait`/`BackgroundIdleNotification` cell the new `next_gc_start_ms` is
`time_ms + kLongDelayMs`, as the unit test `FromWaitToWait` requires
(`EXPECT_EQ(2000 + MemoryReducer::kLongDelayMs, state1.next_gc_start_ms)`
after an idle notification at time 2000), not the unchanged value the
spec's table row states. -/
def Step (cfg : Config) (state : State) (event : Event) : State :=
  match state.action, event.type with
  | Action.kDone, EventType.kTimer => state
  | Action.kDone, EventType.kBackgroundIdleNotification => state
  | Action.kDone, EventType.kMarkCompact =>
      ⟨Action.kWait, 0, event.time_ms + cfg.kLongDelayMs⟩
  | Action.kDone, EventType.kContextDisposed =>
      ⟨Action.kWait, 0, event.time_ms + cfg.kLongDelayMs⟩
  | Action.kWait, EventType.kContextDisposed => state
  | Action.kWait, EventType.kTimer =>
      if cfg.kMaxNumberOfGCs ≤ state.started_gcs then
        ⟨Action.kDone, 0, 0⟩
      else if event.low_allocation_rate ∧ event.can_start_incremental_gc then
        if state.next_gc_start_ms ≤ event.time_ms then
          ⟨Action.kRun, state.started_gcs + 1, 0⟩
        else
          state
      else
        ⟨Action.kWait, state.started_gcs, event.time_ms + cfg.kLongDelayMs⟩
  | Action.kWait, EventType.kMarkCompact =>
      ⟨Action.kWait, state.started_gcs, event.time_ms + cfg.kLongDelayMs⟩
  | Action.kWait, EventType.kBackgroundIdleNotification =>
      if event.can_start_incremental_gc ∧
          state.started_gcs < cfg.kMaxNumberOfGCs then
        ⟨Action.kWait, state.started_gcs + 1,
          event.time_ms + cfg.kLongDelayMs⟩
      else
        state
  | Action.kRun, EventType.kMarkCompact =>
      if (event.next_gc_likely_to_collect_more = false ∧
            1 < state.started_gcs) ∨
          cfg.kMaxNumberOfGCs ≤ state.started_gcs then
        ⟨Action.kDone, 0, 0⟩
      else
        ⟨Action.kWait, state.started_gcs, event.time_ms + cfg.kShortDelayMs⟩
  | Action.kRun, EventType.kTimer => state
  | Action.kRun, EventType.kContextDisposed => state
  | Action.kRun, EventType.kBackgroundIdleNotification => state

/-- Folding `Step` over a list of events, oldest first: the state the driver
holds after delivering the whole list. -/
def StepList (cfg : Config) (s : State) (events : List Event) : State :=
  events.foldl (Step cfg) s

/-- The initial state `(kDone, 0, 0.0)` installed by the `MemoryReducer`
constructor in memory-reducer.h. -/
def initialState : State := ⟨Action.kDone, 0, 0⟩

/-- A state is reachable when some finite event sequence drives the
controller from the initial state to it. -/
def Reachable (cfg : Config) (s : State) : Prop :=
  ∃ events : List Event, StepList cfg initialState events = s

/-- A sample configuration used for concrete witnesses; `kMaxNumberOfGCs`
is at least 2 as the spec requires. -/
def cfg0 : Config := ⟨20000, 500, 7⟩

/-- Delivering a concatenation of event lists is delivering the first list
and then the second. -/
theorem stepList_append (cfg : Config) (s : State) (l₁ l₂ : List Event) :
    StepList cfg s (l₁ ++ l₂) = StepList cfg (StepList cfg s l₁) l₂ :=
  List.foldl_append _ _ _ _

/-- Delivering `e :: l` is one `Step` on `e` and then delivering `l`. -/
theorem stepList_cons (cfg : Config) (s : State) (e : Event) (l : List Event) :
    StepList cfg s (e :: l) = StepList cfg (Step cfg s e) l := rfl

/-- A background idle notification that may start an incremental GC. -/
def idleE : Event := ⟨EventType.kBackgroundIdleNotification, 0, false, false, true⟩

/-- A timer tick with a high allocation rate and a pending GC. -/
def timerHighE : Event := ⟨EventType.kTimer, 0, false, false, false⟩

/-- A mark-compact completion reporting no more collectable garbage. -/
def mcNoMoreE : Event := ⟨EventType.kMarkCompact, 0, false, false, false⟩

/-- Repeated idle notifications pump `started_gcs` up while remaining in
`Wait`; the deadline field follows the idle events but is irrelevant to the
cap exit used next. -/
theorem idle_pump (cfg : Config) (j : ℕ) :
    ∀ (n : ℤ) (x : ℚ), n + j ≤ cfg.kMaxNumberOfGCs →
      ∃ x' : ℚ,
        StepList cfg ⟨Action.kWait, n, x⟩ (List.replicate j idleE) =
          ⟨Action.kWait, n + j, x'⟩ := by
  induction j with
  | zero => intro n x _; exact ⟨x, by simp [StepList]⟩
  | succ j ih =>
      intro n x h
      have hn : n < cfg.kMaxNumberOfGCs := by push_cast at h; omega
      have hstep : Step cfg ⟨Action.kWait, n, x⟩ idleE =
          ⟨Action.kWait, n + 1, 0 + cfg.kLongDelayMs⟩ := by
        simp [Step, idleE, hn]
      obtain ⟨x', hx'⟩ := ih (n + 1) (0 + cfg.kLongDelayMs)
        (by push_cast at h ⊢; omega)
      refine ⟨x', ?_⟩
      rw [List.replicate_succ, stepList_cons, hstep, hx']
      simp only [State.mk.injEq, and_true, true_and]
      push_cast
      ring

/-- In `Wait` at or beyond the GC cap, any timer tick exits to `Done`. -/
theorem wait_capped_timer_done (cfg : Config) (n : ℤ) (x : ℚ)
    (h : cfg.kMaxNumberOfGCs ≤ n) :
    Step cfg ⟨Action.kWait, n, x⟩ timerHighE = ⟨Action.kDone, 0, 0⟩ := by
  simp [Step, timerHighE, h]

/-- From any `Wait` state some finite event sequence reaches `Done`: pump
idle notifications to the cap, then deliver one timer tick. -/
theorem wait_progress (cfg : Config) (n : ℤ) (x : ℚ) :
    ∃ es : List Event,
      (StepList cfg ⟨Action.kWait, n, x⟩ es).action = Action.kDone := by
  by_cases h : cfg.kMaxNumberOfGCs ≤ n
  · refine ⟨[timerHighE], ?_⟩
    rw [stepList_cons, wait_capped_timer_done cfg n x h]
    rfl
  · refine ⟨List.replicate (cfg.kMaxNumberOfGCs - n).toNat idleE ++
      [timerHighE], ?_⟩
    have hj : n + ((cfg.kMaxNumberOfGCs - n).toNat : ℤ) =
        cfg.kMaxNumberOfGCs := by omega
    obtain ⟨x', hx'⟩ := idle_pump cfg _ n x (le_of_eq hj)
    rw [stepList_append, hx', stepList_cons,
      wait_capped_timer_done cfg _ x' (le_of_eq hj.symm)]
    rfl

/-- From any state whatsoever some finite event sequence reaches `Done`. -/
theorem state_progress (cfg : Config) (s : State) :
    ∃ es : List Event, (StepList cfg s es).action = Action.kDone := by
  obtain ⟨a, n, x⟩ := s
  cases a with
  | kDone => exact ⟨[], rfl⟩
  | kWait => exact wait_progress cfg n x
  | kRun =>
      by_cases h : 1 < n ∨ cfg.kMaxNumberOfGCs ≤ n
      · refine ⟨[mcNoMoreE], ?_⟩
        rw [stepList_cons]
        have hstep : Step cfg ⟨Action.kRun, n, x⟩ mcNoMoreE =
            ⟨Action.kDone, 0, 0⟩ := by
          rcases h with h | h <;> simp [Step, mcNoMoreE, h]
        rw [hstep]
        rfl
      · have hw : Step cfg ⟨Action.kRun, n, x⟩ mcNoMoreE =
            ⟨Action.kWait, n, mcNoMoreE.time_ms + cfg.kShortDelayMs⟩ := by
          simp only [Step, mcNoMoreE]
          refine if_neg ?_
          rintro (⟨-, h1⟩ | h2)
          · exact h (Or.inl h1)
          · exact h (Or.inr h2)
        obtain ⟨es, hes⟩ :=
          wait_progress cfg n (mcNoMoreE.time_ms + cfg.kShortDelayMs)
        exact ⟨mcNoMoreE :: es, by rw [stepList_cons, hw]; exact hes⟩

/-- C9: from every state reachable from the initial state, some finite
sequence of events drives the controller to a state with action `Done`. -/
theorem reachable_progress_to_done (cfg : Config) (s : State)
    (h : Reachable cfg s) :
    ∃ es : List Event, (StepList cfg s es).action = Action.kDone :=
  state_progress cfg s

/-- C9 (witness): applied to the reachable initial state under `cfg0`. -/
theorem reachable_progress_to_done_witness :
    ∃ es : List Event,
      (StepList cfg0 initialState es).action = Action.kDone :=
  reachable_progress_to_done cfg0 initialState ⟨[], rfl⟩

/-- The inductive invariant behind C10: `started_gcs` is nonnegative and a
`Run` state has initiated at least one GC. -/
def RunInv (s : State) : Prop :=
  0 ≤ s.started_gcs ∧ (s.action = Action.kRun → 1 ≤ s.started_gcs)

/-- One `Step` preserves `RunInv`. -/
theorem runInv_step (cfg : Config) (s : State) (e : Event) (h : RunInv s) :
    RunInv (Step cfg s e) := by
  obtain ⟨a, n, x⟩ := s
  obtain ⟨t, tm, lar, more, can⟩ := e
  obtain ⟨h0, h1⟩ := h
  simp only at h0 h1
  cases a <;> cases t <;> simp only [Step, RunInv] <;> (try split_ifs) <;>
    (try simp_all) <;> omega

/-- Delivering any event list preserves `RunInv`. -/
theorem runInv_stepList (cfg : Config) (s : State) (l : List Event)
    (h : RunInv s) : RunInv (StepList cfg s l) := by
  induction l generalizing s with
  | nil => exact h
  | cons e l ih => exact ih (Step cfg s e) (runInv_step cfg s e h)

/-- Every reachable state satisfies `RunInv`. -/
theorem reachable_runInv (cfg : Config) (s : State) (h : Reachable cfg s) :
    RunInv s := by
  obtain ⟨es, rfl⟩ := h
  refine runInv_stepList cfg initialState es ⟨le_refl 0, ?_⟩
  intro hr
  simp [initialState] at hr

/-- C10: every reachable state whose action is `Run` has
`started_gcs ≥ 1`. -/
theorem reachable_run_started_gcs_pos (cfg : Config) (s : State)
    (h : Reachable cfg s) (hr : s.action = Action.kRun) :
    1 ≤ s.started_gcs :=
  (reachable_runInv cfg s h).2 hr

/-- A timer tick at time 20000 with a low allocation rate and no GC in
progress; it moves `(Wait, 0, 20000)` to `Run` under `cfg0`. -/
def timerGoE : Event := ⟨EventType.kTimer, 20000, true, false, true⟩

/-- C10 (witness): the `Run` state reached under `cfg0` by a mark-compact
completion followed by a quiescent timer tick has `started_gcs = 1 ≥ 1`. -/
theorem reachable_run_started_gcs_pos_witness :
    1 ≤ (⟨Action.kRun, 1, 0⟩ : State).started_gcs :=
  reachable_run_started_gcs_pos cfg0 ⟨Action.kRun, 1, 0⟩
    ⟨[mcNoMoreE, timerGoE], by
      norm_num [StepList, List.foldl, Step, initialState, mcNoMoreE,
        timerGoE, cfg0]⟩ rfl

/-- C1 (counterexample): at a `Wait` state whose `started_gcs` has reached
`kMaxNumberOfGCs`, a `Timer` event with a high allocation rate does not yield
`Wait` with `next_gc_start_ms = time_ms + kLongDelayMs` as the claim states:
the cap exit fires first and the result is `(Done, 0, 0)`, exactly as the
unit test `FromWaitToDone` expects. -/
theorem step_wait_timer_cap_counterexample :
    Step cfg0 ⟨Action.kWait, 7, 0⟩
        ⟨EventType.kTimer, 2000, false, false, true⟩ =
      ⟨Action.kDone, 0, 0⟩ ∧
    Step cfg0 ⟨Action.kWait, 7, 0⟩
        ⟨EventType.kTimer, 2000, false, false, true⟩ ≠
      ⟨Action.kWait, 7, 2000 + cfg0.kLongDelayMs⟩ := by
  constructor <;> simp [Step, cfg0]

/-- C1 (amended): for every `Wait` state `s` with
`s.started_gcs < kMaxNumberOfGCs`, a `Timer` event whose
`low_allocation_rate` is false or whose `can_start_incremental_gc` is false
yields `Wait` with `started_gcs = s.started_gcs` and
`next_gc_start_ms = event.time_ms + kLongDelayMs`; the cap qualification is
needed because the cap exit to `Done` is checked before this row. -/
theorem step_wait_timer_not_ready (cfg : Config) (s : State) (e : Event)
    (hs : s.action = Action.kWait)
    (hcap : s.started_gcs < cfg.kMaxNumberOfGCs)
    (he : e.type = EventType.kTimer)
    (hlc : e.low_allocation_rate = false ∨ e.can_start_incremental_gc = false) :
    Step cfg s e =
      ⟨Action.kWait, s.started_gcs, e.time_ms + cfg.kLongDelayMs⟩ := by
  obtain ⟨a, n, x⟩ := s
  obtain ⟨t, tm, lar, more, can⟩ := e
  simp only at hs he hcap
  subst hs; subst he
  simp only [Step]
  rw [if_neg (by omega), if_neg (by rcases hlc with h | h <;> simp_all)]

/-- C1 (witness for the amended theorem): the concrete instance
`Step (Wait, 2, 1000) Timer{time_ms = 2000, low_allocation_rate = false,
can_start_incremental_gc = true} = (Wait, 2, 22000)` under `cfg0`. -/
theorem step_wait_timer_not_ready_witness :
    Step cfg0 ⟨Action.kWait, 2, 1000⟩
        ⟨EventType.kTimer, 2000, false, false, true⟩ =
      ⟨Action.kWait, 2, 2000 + cfg0.kLongDelayMs⟩ :=
  step_wait_timer_not_ready cfg0 ⟨Action.kWait, 2, 1000⟩
    ⟨EventType.kTimer, 2000, false, false, true⟩ rfl (by decide) rfl
    (Or.inl rfl)

/-- C2 (counterexample): at the unit test `FromWaitToWait`'s exact input —
state `(Wait, 2, 1000)`, `BackgroundIdleNotification{time_ms = 2000,
can_start_incremental_gc = true}` — the program (test lines 170-173) yields
`next_gc_start_ms = 2000 + kLongDelayMs`, not the unchanged `1000` the
claim states. -/
theorem step_wait_idle_counterexample :
    Step cfg0 ⟨Action.kWait, 2, 1000⟩
        ⟨EventType.kBackgroundIdleNotification, 2000, false, false, true⟩ =
      ⟨Action.kWait, 3, 2000 + cfg0.kLongDelayMs⟩ ∧
    Step cfg0 ⟨Action.kWait, 2, 1000⟩
        ⟨EventType.kBackgroundIdleNotification, 2000, false, false, true⟩ ≠
      ⟨Action.kWait, 3, 1000⟩ := by
  constructor <;> simp [Step, cfg0] <;> norm_num

/-- C2 (amended): for every `Wait` state `s` with
`started_gcs < kMaxNumberOfGCs`, a `BackgroundIdleNotification` event with
`can_start_incremental_gc = true` yields `Wait` with
`started_gcs = s.started_gcs + 1` and
`next_gc_start_ms = event.time_ms + kLongDelayMs` (the deadline is pushed
out, as the unit test `FromWaitToWait` requires; the spec's claim that it
is unchanged does not match the program). -/
theorem step_wait_idle_increment (cfg : Config) (s : State) (e : Event)
    (hs : s.action = Action.kWait)
    (hcap : s.started_gcs < cfg.kMaxNumberOfGCs)
    (he : e.type = EventType.kBackgroundIdleNotification)
    (hc : e.can_start_incremental_gc = true) :
    Step cfg s e =
      ⟨Action.kWait, s.started_gcs + 1, e.time_ms + cfg.kLongDelayMs⟩ := by
  obtain ⟨a, n, x⟩ := s
  obtain ⟨t, tm, lar, more, can⟩ := e
  simp only at hs he hcap hc
  subst hs; subst he; subst hc
  simp only [Step]
  simp [hcap]

/-- C2 (witness): the unit test `FromWaitToWait`'s idle case,
`Step (Wait, 2, 1000) BackgroundIdleNotification{time_ms = 2000,
can_start_incremental_gc = true} = (Wait, 3, 2000 + kLongDelayMs)`. -/
theorem step_wait_idle_increment_witness :
    Step cfg0 ⟨Action.kWait, 2, 1000⟩
        ⟨EventType.kBackgroundIdleNotification, 2000, false, false, true⟩ =
      ⟨Action.kWait, 2 + 1, 2000 + cfg0.kLongDelayMs⟩ :=
  step_wait_idle_increment cfg0 ⟨Action.kWait, 2, 1000⟩
    ⟨EventType.kBackgroundIdleNotification, 2000, false, false, true⟩ rfl
    (by decide) rfl rfl

/-- C4: for every `Wait` state `s` with `started_gcs < kMaxNumberOfGCs`, a
`Timer` event with `low_allocation_rate` and `can_start_incremental_gc` both
true and `time_ms ≥ s.next_gc_start_ms` (inclusively) yields
`(Run, s.started_gcs + 1, 0)`. -/
theorem step_wait_timer_to_run (cfg : Config) (s : State) (e : Event)
    (hs : s.action = Action.kWait)
    (hcap : s.started_gcs < cfg.kMaxNumberOfGCs)
    (he : e.type = EventType.kTimer)
    (hl : e.low_allocation_rate = true)
    (hc : e.can_start_incremental_gc = true)
    (ht : s.next_gc_start_ms ≤ e.time_ms) :
    Step cfg s e = ⟨Action.kRun, s.started_gcs + 1, 0⟩ := by
  obtain ⟨a, n, x⟩ := s
  obtain ⟨t, tm, lar, more, can⟩ := e
  simp only at hs he hcap hl hc ht
  subst hs; subst he; subst hl; subst hc
  simp only [Step]
  rw [if_neg (by omega)]
  simp [ht]

/-- C4 (witness): at exact equality `time_ms = next_gc_start_ms` the
transition fires: `Step (Wait, 0, 1000) Timer{time_ms = 1000,
low_allocation_rate = true, can_start_incremental_gc = true} = (Run, 1, 0)`. -/
theorem step_wait_timer_to_run_witness :
    Step cfg0 ⟨Action.kWait, 0, 1000⟩
        ⟨EventType.kTimer, 1000, true, false, true⟩ =
      ⟨Action.kRun, 1, 0⟩ :=
  step_wait_timer_to_run cfg0 ⟨Action.kWait, 0, 1000⟩
    ⟨EventType.kTimer, 1000, true, false, true⟩ rfl (by decide) rfl rfl rfl
    le_rfl

/-- C3: from a `Run` state, a `MarkCompact` event yields `(Done, 0, 0)`
exactly when `next_gc_likely_to_collect_more` is false and `started_gcs > 1`,
or `started_gcs ≥ kMaxNumberOfGCs`; otherwise it yields `Wait` with the same
`started_gcs` and `next_gc_start_ms = time_ms + kShortDelayMs`.  In
particular, with `started_gcs = 1` and `next_gc_likely_to_collect_more`
false the result is that `Wait` state, not `Done`. -/
theorem step_run_markCompact_characterization (cfg : Config) (s : State)
    (e : Event) (hmax : 2 ≤ cfg.kMaxNumberOfGCs)
    (hs : s.action = Action.kRun) (he : e.type = EventType.kMarkCompact) :
    (Step cfg s e = ⟨Action.kDone, 0, 0⟩ ↔
      (e.next_gc_likely_to_collect_more = false ∧ 1 < s.started_gcs) ∨
        cfg.kMaxNumberOfGCs ≤ s.started_gcs) ∧
    (¬ ((e.next_gc_likely_to_collect_more = false ∧ 1 < s.started_gcs) ∨
          cfg.kMaxNumberOfGCs ≤ s.started_gcs) →
      Step cfg s e =
        ⟨Action.kWait, s.started_gcs, e.time_ms + cfg.kShortDelayMs⟩) ∧
    (s.started_gcs = 1 → e.next_gc_likely_to_collect_more = false →
      Step cfg s e =
        ⟨Action.kWait, 1, e.time_ms + cfg.kShortDelayMs⟩) := by
  obtain ⟨a, n, x⟩ := s
  obtain ⟨t, tm, lar, more, can⟩ := e
  simp only at hs he
  subst hs; subst he
  simp only [Step]
  split_ifs with h
  · refine ⟨⟨fun _ => h, fun _ => rfl⟩, fun hn => absurd h hn, ?_⟩
    rintro rfl rfl
    rcases h with ⟨-, h2⟩ | h2 <;> omega
  · refine ⟨⟨fun heq => ?_, fun hh => absurd hh h⟩, fun _ => rfl, ?_⟩
    · simp at heq
    · rintro rfl -
      rfl

/-- C3 (witness): under `cfg0` (whose cap is at least 2), a `Run` state with
`started_gcs = 1` and `next_gc_likely_to_collect_more = false` goes to
`Wait`, not `Done`, and the characterizing equivalence holds there. -/
theorem step_run_markCompact_characterization_witness :
    ((Step cfg0 ⟨Action.kRun, 1, 0⟩
        ⟨EventType.kMarkCompact, 2000, false, false, false⟩ =
          ⟨Action.kDone, 0, 0⟩ ↔
      ((false : Bool) = false ∧ (1 : ℤ) < 1) ∨
        cfg0.kMaxNumberOfGCs ≤ 1) ∧
    (¬ (((false : Bool) = false ∧ (1 : ℤ) < 1) ∨
          cfg0.kMaxNumberOfGCs ≤ 1) →
      Step cfg0 ⟨Action.kRun, 1, 0⟩
          ⟨EventType.kMarkCompact, 2000, false, false, false⟩ =
        ⟨Action.kWait, 1, 2000 + cfg0.kShortDelayMs⟩) ∧
    ((1 : ℤ) = 1 → (false : Bool) = false →
      Step cfg0 ⟨Action.kRun, 1, 0⟩
          ⟨EventType.kMarkCompact, 2000, false, false, false⟩ =
        ⟨Action.kWait, 1, 2000 + cfg0.kShortDelayMs⟩)) :=
  step_run_markCompact_characterization cfg0 ⟨Action.kRun, 1, 0⟩
    ⟨EventType.kMarkCompact, 2000, false, false, false⟩ (by decide) rfl rfl

/-- C5: `Step` preserves the bound `0 ≤ started_gcs ≤ kMaxNumberOfGCs` for
every state within the bound and every event. -/
theorem step_preserves_started_gcs_bounds (cfg : Config) (s : State)
    (e : Event) (h0 : 0 ≤ s.started_gcs)
    (h1 : s.started_gcs ≤ cfg.kMaxNumberOfGCs) :
    0 ≤ (Step cfg s e).started_gcs ∧
      (Step cfg s e).started_gcs ≤ cfg.kMaxNumberOfGCs := by
  obtain ⟨a, n, x⟩ := s
  obtain ⟨t, tm, lar, more, can⟩ := e
  simp only at h0 h1
  cases a <;> cases t <;> simp only [Step] <;> (try split_ifs) <;>
    (try simp_all) <;> omega

/-- C5 (witness): the bound holds at a concrete in-bounds state and event
under `cfg0`. -/
theorem step_preserves_started_gcs_bounds_witness :
    0 ≤ (Step cfg0 ⟨Action.kWait, 2, 1000⟩
          ⟨EventType.kTimer, 2000, true, false, true⟩).started_gcs ∧
      (Step cfg0 ⟨Action.kWait, 2, 1000⟩
          ⟨EventType.kTimer, 2000, true, false, true⟩).started_gcs ≤
        cfg0.kMaxNumberOfGCs :=
  step_preserves_started_gcs_bounds cfg0 ⟨Action.kWait, 2, 1000⟩
    ⟨EventType.kTimer, 2000, true, false, true⟩ (by decide) (by decide)

/-- C6 (counterexample): the claim quantifies over every state, but on the
malformed `Done` state `(Done, 5, 7)` a `Timer` event returns the state
unchanged, so `Step` yields action `Done` with `started_gcs = 5 ≠ 0`. -/
theorem step_done_nonzero_counterexample :
    (Step cfg0 ⟨Action.kDone, 5, 7⟩
        ⟨EventType.kTimer, 0, true, false, true⟩).action = Action.kDone ∧
      (Step cfg0 ⟨Action.kDone, 5, 7⟩
        ⟨EventType.kTimer, 0, true, false, true⟩).started_gcs ≠ 0 := by
  constructor <;> simp [Step]

/-- C6 (amended): for every state `s` that is well formed in `Done` (if its
action is `Done` its two fields are zero, as holds for every reachable
state) and every event, if `Step` returns action `Done` then the returned
`started_gcs` and `next_gc_start_ms` are both zero. -/
theorem step_done_fields_zero (cfg : Config) (s : State) (e : Event)
    (hwf : s.action = Action.kDone →
      s.started_gcs = 0 ∧ s.next_gc_start_ms = 0)
    (hd : (Step cfg s e).action = Action.kDone) :
    (Step cfg s e).started_gcs = 0 ∧
      (Step cfg s e).next_gc_start_ms = 0 := by
  obtain ⟨a, n, x⟩ := s
  obtain ⟨t, tm, lar, more, can⟩ := e
  cases a <;> cases t <;> simp only [Step] at hd ⊢ <;>
    (try split_ifs at hd ⊢) <;> simp_all

/-- C6 (witness): the `Run → Done` exit under `cfg0` produces zeroed
fields. -/
theorem step_done_fields_zero_witness :
    (Step cfg0 ⟨Action.kRun, 2, 0⟩
        ⟨EventType.kMarkCompact, 2000, false, false, false⟩).started_gcs =
      0 ∧
    (Step cfg0 ⟨Action.kRun, 2, 0⟩
        ⟨EventType.kMarkCompact, 2000, false, false, false⟩).next_gc_start_ms
      = 0 :=
  step_done_fields_zero cfg0 ⟨Action.kRun, 2, 0⟩
    ⟨EventType.kMarkCompact, 2000, false, false, false⟩ (by simp)
    (by simp [Step])

/-- C7: a `ContextDisposed` event leaves every `Wait` or `Run` state
completely unchanged. -/
theorem step_contextDisposed_unchanged (cfg : Config) (s : State) (e : Event)
    (hs : s.action = Action.kWait ∨ s.action = Action.kRun)
    (he : e.type = EventType.kContextDisposed) :
    Step cfg s e = s := by
  obtain ⟨a, n, x⟩ := s
  obtain ⟨t, tm, lar, more, can⟩ := e
  simp only at hs he
  subst he
  rcases hs with h | h <;> subst h <;> rfl

/-- C7 (witness): `ContextDisposed` at time 2000 leaves `(Wait, 2, 1000)`
unchanged, as the unit test `FromWaitToWait` checks. -/
theorem step_contextDisposed_unchanged_witness :
    Step cfg0 ⟨Action.kWait, 2, 1000⟩
        ⟨EventType.kContextDisposed, 2000, false, false, false⟩ =
      ⟨Action.kWait, 2, 1000⟩ :=
  step_contextDisposed_unchanged cfg0 ⟨Action.kWait, 2, 1000⟩
    ⟨EventType.kContextDisposed, 2000, false, false, false⟩ (Or.inl rfl) rfl

/-- C8: on the `Done` state `(Done, 0, 0)`, every `Timer` and every
`BackgroundIdleNotification` event (with any field values) returns the same
`Done` state, while every `MarkCompact` and every `ContextDisposed` event —
the only events that leave `Done` — moves it to
`(Wait, 0, time_ms + kLongDelayMs)`. -/
theorem step_done_transitions (cfg : Config) (e : Event) :
    ((e.type = EventType.kTimer ∨
        e.type = EventType.kBackgroundIdleNotification) →
      Step cfg ⟨Action.kDone, 0, 0⟩ e = ⟨Action.kDone, 0, 0⟩) ∧
    ((e.type = EventType.kMarkCompact ∨
        e.type = EventType.kContextDisposed) →
      Step cfg ⟨Action.kDone, 0, 0⟩ e =
        ⟨Action.kWait, 0, e.time_ms + cfg.kLongDelayMs⟩) := by
  obtain ⟨t, tm, lar, more, can⟩ := e
  cases t <;> simp [Step]

/-- C8 (witness): a concrete `Timer` event leaves `(Done, 0, 0)` in place
and a concrete `MarkCompact` event moves it to `Wait`. -/
theorem step_done_transitions_witness :
    Step cfg0 ⟨Action.kDone, 0, 0⟩
        ⟨EventType.kTimer, 5, true, true, true⟩ =
      ⟨Action.kDone, 0, 0⟩ ∧
    Step cfg0 ⟨Action.kDone, 0, 0⟩
        ⟨EventType.kMarkCompact, 5, true, true, true⟩ =
      ⟨Action.kWait, 0, (5 : ℚ) + cfg0.kLongDelayMs⟩ :=
  ⟨(step_done_transitions cfg0
      ⟨EventType.kTimer, 5, true, true, true⟩).1 (Or.inl rfl),
    (step_done_transitions cfg0
      ⟨EventType.kMarkCompact, 5, true, true, true⟩).2 (Or.inl rfl)⟩

end MemoryReducer
